import Mathlib

/-!
Verification of the Intake Version Tracker proof-of-concept.

This file gives a shallow embedding of the persistence and service layer of
the repository (src/core/repository.py, src/core/roles.py and the save flow
of src/app.py) and proves the specified properties about it.

Modelling conventions:
- SQLite rows become Lean structures; each table is a list in insertion
  (rowid) order; SELECT ... WHERE id = ? fetchone becomes List.find?;
  INSERT becomes appending; UPDATE ... WHERE id = ? becomes List.map with a
  conditional; ORDER BY becomes List.mergeSort with the corresponding key
  (mergeSort is stable, matching the deterministic scan order of the store).
- uuid4 identifiers are modelled by a fresh-id counter nextId on the store:
  every generated id is the current counter value and the counter grows, so
  generated ids never collide (the property uuid4 provides in practice).
- Python datetime values are modelled by a Timestamp carrying the instant
  and which kind of wall-clock encoding the produced ISO string has:
  datetime.now(TORONTO_TZ).isoformat() embeds the Eastern-Canada UTC offset
  (torontoOffset), while datetime.utcnow().isoformat() is a naive string
  with no offset embedded (naiveUTC). The current wall-clock instant is
  passed to each operation as an explicit argument.
- A JSON metadata dict is modelled by MetaDoc; a field value of none means
  the key is missing or null (Python reads them with .get(k, []) or [],
  which collapses exactly those two cases to the empty list).
- Each Python function keeps its source name.
-/

inductive TZKind where
  | torontoOffset
  | naiveUTC
deriving DecidableEq

/-- An ISO timestamp string: the instant it denotes plus the wall-clock
encoding used when serialising it. -/
structure Timestamp where
  instant : Nat
  tz : TZKind
deriving DecidableEq

/-- Embeds now_toronto_iso from src/core/repository.py: an aware datetime in
America/Toronto, serialised with its UTC offset embedded. -/
def now_toronto_iso (t : Nat) : Timestamp :=
  { instant := t, tz := TZKind.torontoOffset }

/-- Embeds datetime.utcnow().isoformat() as used in add_comment: a naive
timestamp with no UTC offset embedded. -/
def utcnow_iso (t : Nat) : Timestamp :=
  { instant := t, tz := TZKind.naiveUTC }

/-- src/core/models.py User. -/
structure User where
  id : String
  display_name : String
  email : String
  role : String
deriving DecidableEq

/-- src/core/roles.py constant USER. -/
def roles.USER : String := "user"

/-- src/core/roles.py constant ADMIN. -/
def roles.ADMIN : String := "admin"

/-- src/core/roles.py constant VIEWER. -/
def roles.VIEWER : String := "viewer"

/-- src/core/roles.py is_user. -/
def roles.is_user (u : User) : Bool := u.role == roles.USER

/-- src/core/roles.py is_admin. -/
def roles.is_admin (u : User) : Bool := u.role == roles.ADMIN

/-- src/core/roles.py is_viewer. -/
def roles.is_viewer (u : User) : Bool := u.role == roles.VIEWER

/-- The ai_metadata JSON object: each tracked key is either present with a
list value (some) or missing/null (none). -/
structure MetaDoc where
  framework_tags : Option (List String) := none
  capability_groups : Option (List String) := none
deriving DecidableEq

/-- The content JSON document stored on a version, as constructed by the
forms in src/app.py; ai_metadata is none when the stored document lacks the
key. -/
structure Content where
  business_problem : String := ""
  description : String := ""
  ai_metadata : Option MetaDoc := none
deriving DecidableEq

/-- src/core/models.py Record. -/
structure Record where
  id : Nat
  title : String
  record_type : String
  current_version_id : Option Nat
  created_by : String
  created_at : Timestamp
  status : String
deriving DecidableEq

/-- src/core/models.py RecordVersion. -/
structure RecordVersion where
  id : Nat
  record_id : Nat
  version_number : Nat
  content : Content
  created_by : String
  created_by_name : String
  created_at : Timestamp
  version_type : String
  parent_version_id : Option Nat
deriving DecidableEq

/-- src/core/models.py Comment. -/
structure Comment where
  id : Nat
  record_id : Nat
  version_id : Option Nat
  author_id : String
  author_name : String
  role : String
  text : String
  created_at : Timestamp
deriving DecidableEq

/-- src/core/models.py OverrideEvent; original_value and new_value are the
JSON-encoded tag lists produced by the diff engine. -/
structure OverrideEvent where
  id : Nat
  record_id : Nat
  version_id : Nat
  field_path : String
  original_value : List String
  new_value : List String
  overridden_by : String
  overridden_by_name : String
  overridden_at : Timestamp
deriving DecidableEq

/-- The SQLite database of src/core/repository.py: the four tables in rowid
order plus the fresh-identifier counter modelling uuid4 generation. -/
structure Store where
  records : List Record
  record_versions : List RecordVersion
  comments : List Comment
  override_events : List OverrideEvent
  nextId : Nat
deriving DecidableEq

/-- The freshly initialised database (init_db creates empty tables). -/
def Store.empty : Store :=
  { records := [], record_versions := [], comments := [], override_events := [], nextId := 0 }

/-- Embeds diff_ai_metadata from src/app.py lines 80-106: compare the two
tracked fields of old vs new ai_metadata; an absent document (old_meta or
new_meta falsy) and a missing/null key both default to the empty list. -/
def diff_ai_metadata (old_meta new_meta : Option MetaDoc) :
    List (String × List String × List String) :=
  let om := old_meta.getD {}
  let nm := new_meta.getD {}
  let old_framework := om.framework_tags.getD []
  let new_framework := nm.framework_tags.getD []
  let d1 :=
    if old_framework ≠ new_framework then
      [("ai_metadata.framework_tags", old_framework, new_framework)]
    else []
  let old_caps := om.capability_groups.getD []
  let new_caps := nm.capability_groups.getD []
  let d2 :=
    if old_caps ≠ new_caps then
      [("ai_metadata.capability_groups", old_caps, new_caps)]
    else []
  d1 ++ d2

/-- Embeds create_record_with_initial_version (repository.py lines 166-228):
insert the Record and its version 1 in one transaction and return the
Record; the version type is the literal "draft" and the version number the
literal 1. -/
def create_record_with_initial_version (st : Store) (title record_type : String)
    (content : Content) (user : User) (status : String) (t : Nat) : Record × Store :=
  let now := now_toronto_iso t
  let record_id := st.nextId
  let version_id := st.nextId + 1
  let r : Record :=
    { id := record_id, title := title, record_type := record_type,
      current_version_id := some version_id, created_by := user.id,
      created_at := now, status := status }
  let v : RecordVersion :=
    { id := version_id, record_id := record_id, version_number := 1,
      content := content, created_by := user.id,
      created_by_name := user.display_name, created_at := now,
      version_type := "draft", parent_version_id := none }
  (r, { st with records := st.records ++ [r],
                record_versions := st.record_versions ++ [v],
                nextId := st.nextId + 2 })

/-- Comparison key of ORDER BY created_at DESC (newest first). -/
def byCreatedAtDesc (a b : Record) : Bool :=
  decide (b.created_at.instant ≤ a.created_at.instant)

/-- Embeds list_records_for_user (repository.py lines 231-259): admins see
every record, plain users the records they created, and every other role
falls to the viewer branch seeing the non-draft records; all ordered by
created_at descending. -/
def list_records_for_user (st : Store) (user : User) : List Record :=
  if roles.is_admin user then
    st.records.mergeSort byCreatedAtDesc
  else if roles.is_user user then
    (st.records.filter (fun r => r.created_by == user.id)).mergeSort byCreatedAtDesc
  else
    (st.records.filter (fun r => r.status != "draft")).mergeSort byCreatedAtDesc

/-- Embeds get_record_by_id (repository.py lines 323-334). -/
def get_record_by_id (st : Store) (record_id : Nat) : Option Record :=
  st.records.find? (fun r => r.id == record_id)

/-- Embeds get_current_version (repository.py lines 337-365): resolve the
current_version_id pointer of the record, then fetch that version. -/
def get_current_version (st : Store) (record_id : Nat) : Option RecordVersion :=
  match st.records.find? (fun r => r.id == record_id) with
  | none => none
  | some r =>
    match r.current_version_id with
    | none => none
    | some version_id => st.record_versions.find? (fun v => v.id == version_id)

/-- The versions belonging to a record, in insertion (creation) order. -/
def versionsOf (st : Store) (record_id : Nat) : List RecordVersion :=
  st.record_versions.filter (fun v => v.record_id == record_id)

/-- Embeds list_versions_for_record (repository.py lines 368-380): all
versions of the record, ORDER BY version_number ASC. -/
def list_versions_for_record (st : Store) (record_id : Nat) : List RecordVersion :=
  (versionsOf st record_id).mergeSort
    (fun a b => decide (a.version_number ≤ b.version_number))

/-- The SELECT COALESCE(MAX(version_number), 0) aggregate of repository.py
line 422. -/
def maxVersionNumber (st : Store) (record_id : Nat) : Nat :=
  (versionsOf st record_id).foldl (fun m v => max m v.version_number) 0

/-- Embeds create_new_version (repository.py lines 383-478): raise NotFound
when the record does not exist; otherwise insert a version numbered
max + 1 whose parent is the current current_version_id, and update the
record with the new pointer, status (falling back to the existing status
when new_status is None) and title, all in one transaction. -/
def create_new_version (st : Store) (record_id : Nat) (new_title : String)
    (content : Content) (user : User) (version_type : String)
    (new_status : Option String) (t : Nat) : Except String (RecordVersion × Store) :=
  match st.records.find? (fun r => r.id == record_id) with
  | none => Except.error ("Record with id " ++ toString record_id ++ " not found")
  | some r =>
    let parent_version_id := r.current_version_id
    let existing_status := r.status
    let next_version_number := maxVersionNumber st record_id + 1
    let now := now_toronto_iso t
    let version_id := st.nextId
    let v : RecordVersion :=
      { id := version_id, record_id := record_id,
        version_number := next_version_number, content := content,
        created_by := user.id, created_by_name := user.display_name,
        created_at := now, version_type := version_type,
        parent_version_id := parent_version_id }
    let final_status := new_status.getD existing_status
    Except.ok (v,
      { st with
        records := st.records.map (fun q =>
          if q.id == record_id then
            { q with current_version_id := some version_id,
                     status := final_status, title := new_title }
          else q),
        record_versions := st.record_versions ++ [v],
        nextId := st.nextId + 1 })

/-- Embeds add_comment (repository.py lines 480-529); note the source takes
its timestamp from datetime.utcnow().isoformat(), not now_toronto_iso. -/
def add_comment (st : Store) (record_id : Nat) (version_id : Option Nat)
    (text : String) (user : User) (t : Nat) : Comment × Store :=
  let now := utcnow_iso t
  let comment_id := st.nextId
  let c : Comment :=
    { id := comment_id, record_id := record_id, version_id := version_id,
      author_id := user.id, author_name := user.display_name,
      role := user.role, text := text, created_at := now }
  (c, { st with comments := st.comments ++ [c], nextId := st.nextId + 1 })

/-- Embeds update_comment (repository.py lines 551-569): overwrite text and
created_at of the matching comment, timestamped via now_toronto_iso. -/
def update_comment (st : Store) (comment_id : Nat) (new_text : String) (t : Nat) : Store :=
  let now := now_toronto_iso t
  { st with comments := st.comments.map (fun c =>
      if c.id == comment_id then { c with text := new_text, created_at := now } else c) }

/-- Embeds delete_comment (repository.py lines 572-582). -/
def delete_comment (st : Store) (comment_id : Nat) : Store :=
  { st with comments := st.comments.filter (fun c => !(c.id == comment_id)) }

/-- The insertion loop of log_override_events: one OverrideEvent row per
diff entry, all with the same timestamp and actor. -/
def insertOverrideEvents (st : Store) (record_id version_id : Nat)
    (overrides : List (String × List String × List String)) (user : User)
    (now : Timestamp) : Store :=
  match overrides with
  | [] => st
  | (field_path, original_value, new_value) :: rest =>
    let e : OverrideEvent :=
      { id := st.nextId, record_id := record_id, version_id := version_id,
        field_path := field_path, original_value := original_value,
        new_value := new_value, overridden_by := user.id,
        overridden_by_name := user.display_name, overridden_at := now }
    insertOverrideEvents
      { st with override_events := st.override_events ++ [e], nextId := st.nextId + 1 }
      record_id version_id rest user now

/-- Embeds log_override_events (repository.py lines 585-630): an empty list
is a no-op; otherwise insert one event per entry in one transaction. -/
def log_override_events (st : Store) (record_id version_id : Nat)
    (overrides : List (String × List String × List String)) (user : User)
    (t : Nat) : Store :=
  if overrides.isEmpty then st
  else insertOverrideEvents st record_id version_id overrides user (now_toronto_iso t)

/-- Embeds list_overrides_for_record (repository.py lines 633-649): all
events of the record, ORDER BY overridden_at ASC. -/
def list_overrides_for_record (st : Store) (record_id : Nat) : List OverrideEvent :=
  (st.override_events.filter (fun e => e.record_id == record_id)).mergeSort
    (fun a b => decide (a.overridden_at.instant ≤ b.overridden_at.instant))

/-- Embeds the save flow of show_editor in src/app.py lines 296-342: build
the updated content from the form fields, diff the tracked metadata of the
current version against it, force version_type to override exactly when the
author is an admin and the diff is non-empty, create the new version, and
log the diff entries as override events only in the override case. Returns
none when the record or its current version cannot be fetched (the page
renders an error and stops in those cases). -/
def save_edit (st : Store) (record_id : Nat) (title business_problem description : String)
    (framework_tags capability_groups : List String) (user : User) (status : String)
    (t t2 : Nat) : Option (RecordVersion × Store) :=
  match get_record_by_id st record_id with
  | none => none
  | some record =>
    match get_current_version st record.id with
    | none => none
    | some current_version =>
      let existing_meta := current_version.content.ai_metadata.getD {}
      let updated_content : Content :=
        { business_problem := business_problem, description := description,
          ai_metadata := some { framework_tags := some framework_tags,
                                capability_groups := some capability_groups } }
      let overrides := diff_ai_metadata (some existing_meta) updated_content.ai_metadata
      let version_type := if roles.is_admin user && !overrides.isEmpty then "override" else "edit"
      match create_new_version st record.id title updated_content user version_type
          (some status) t with
      | Except.error _ => none
      | Except.ok (new_version, st1) =>
        if version_type == "override" then
          some (new_version,
            log_override_events st1 record.id new_version.id overrides user t2)
        else
          some (new_version, st1)

/-- One mutating repository operation together with its inputs; the Nat
argument is the wall-clock instant at which the operation runs. -/
inductive Op where
  | createRecord (title record_type : String) (content : Content) (user : User)
      (status : String) (t : Nat)
  | newVersion (record_id : Nat) (new_title : String) (content : Content)
      (user : User) (version_type : String) (new_status : Option String) (t : Nat)
  | addComment (record_id : Nat) (version_id : Option Nat) (text : String)
      (user : User) (t : Nat)
  | updateComment (comment_id : Nat) (new_text : String) (t : Nat)
  | deleteComment (comment_id : Nat)
  | logOverrides (record_id version_id : Nat)
      (overrides : List (String × List String × List String)) (user : User) (t : Nat)

/-- Run one mutating operation; a failing operation (NotFound) leaves the
store unchanged, which is exactly the atomicity the source provides by
raising before any write. -/
def step (st : Store) : Op → Store
  | Op.createRecord title record_type content user status t =>
    (create_record_with_initial_version st title record_type content user status t).2
  | Op.newVersion record_id new_title content user version_type new_status t =>
    match create_new_version st record_id new_title content user version_type new_status t with
    | Except.ok (_, st2) => st2
    | Except.error _ => st
  | Op.addComment record_id version_id text user t =>
    (add_comment st record_id version_id text user t).2
  | Op.updateComment comment_id new_text t => update_comment st comment_id new_text t
  | Op.deleteComment comment_id => delete_comment st comment_id
  | Op.logOverrides record_id version_id overrides user t =>
    log_override_events st record_id version_id overrides user t

/-- Run a sequence of mutating operations from a given store. -/
def applyOps (st : Store) (ops : List Op) : Store :=
  ops.foldl step st

/-- All record ids lie below the fresh-id counter (uuid freshness). -/
def RecIdsBound (st : Store) : Prop :=
  ∀ r ∈ st.records, r.id < st.nextId

/-- All version rows reference record ids below the fresh-id counter. -/
def VersionRecIdsBound (st : Store) : Prop :=
  ∀ v ∈ st.record_versions, v.record_id < st.nextId

/-- Version numbers of each record, in creation order, read exactly 1..N. -/
def VersionNumbersOK (st : Store) : Prop :=
  ∀ record_id : Nat,
    (versionsOf st record_id).map (fun v => v.version_number)
      = List.range' 1 (versionsOf st record_id).length

/-- The reachability invariant maintained by every mutating operation. -/
def StoreInv (st : Store) : Prop :=
  RecIdsBound st ∧ VersionRecIdsBound st ∧ VersionNumbersOK st

/-! ## Demo data used by the concrete witnesses -/

/-- A plain user, as supplied by the mock identity source. -/
def uAlice : User :=
  { id := "alice", display_name := "Alice", email := "alice@example.com", role := "user" }

/-- An admin user. -/
def uAdmin : User :=
  { id := "boss", display_name := "Boss", email := "boss@example.com", role := "admin" }

/-- A user carrying a role string outside the documented set. -/
def uOther : User :=
  { id := "zed", display_name := "Zed", email := "zed@example.com", role := "superadmin" }

/-- A metadata document with both tracked fields present. -/
def metaA : MetaDoc :=
  { framework_tags := some ["Risk & Governance"],
    capability_groups := some ["Fraud Detection"] }

/-- A content document like the ones the intake form builds. -/
def contentA : Content :=
  { business_problem := "Detect suspicious claims.",
    description := "Classify claims.", ai_metadata := some metaA }

/-- A store holding one draft record (id 0, version 1 at id 1) and one
submitted record (id 2, version 1 at id 3), both authored by Alice. -/
def demoStore : Store :=
  applyOps Store.empty
    [Op.createRecord "Fraud Detection" "ai_use_case" contentA uAlice "draft" 0,
     Op.createRecord "Policy Summaries" "ai_use_case" contentA uAlice "submitted" 1]

/-! ## Shared helper lemmas -/

/-- find? commutes with a map that does not change the predicate result. -/
theorem find?_map_congr {α : Type} {p : α → Bool} {f : α → α}
    (hf : ∀ a, p (f a) = p a) (l : List α) :
    (l.map f).find? p = (l.find? p).map f := by
  induction l with
  | nil => rfl
  | cons a l ih =>
    simp only [List.map_cons, List.find?_cons]
    rw [hf a]
    cases hpa : p a <;> simp [ih]

/-- find? skips an initial segment on which the predicate is everywhere false. -/
theorem find?_append_of_forall_false {α : Type} {p : α → Bool} {l1 l2 : List α}
    (h : ∀ x ∈ l1, p x = false) :
    (l1 ++ l2).find? p = l2.find? p := by
  rw [List.find?_append]
  have hn : l1.find? p = none := by
    rw [List.find?_eq_none]
    intro x hx
    simp [h x hx]
  rw [hn, Option.none_or]

/-- Folding max over the numbers 1..n yields n. -/
theorem foldl_max_range' (n : Nat) : (List.range' 1 n).foldl max 0 = n := by
  induction n with
  | zero => rfl
  | succ n ih =>
    rw [List.range'_1_concat, List.foldl_append, ih]
    simp [Nat.max_def]
    omega

/-- A list of versions whose numbers read 1..length has max number equal to
its length. -/
theorem foldl_max_version_number (l : List RecordVersion)
    (h : l.map (fun v => v.version_number) = List.range' 1 l.length) :
    l.foldl (fun m v => max m v.version_number) 0 = l.length := by
  have h2 := List.foldl_map (fun v : RecordVersion => v.version_number) max l 0
  rw [h] at h2
  rw [← h2, foldl_max_range']

/-! ## C5: the diff engine -/

/-- C5: diff_ai_metadata is a total function that yields the empty change
list on any self-diff, yields exactly the single framework_tags triple on
the spec example, and treats an absent document and missing keys as the
empty-list document. -/
theorem diff_engine_self_and_example :
    (∀ m : Option MetaDoc, diff_ai_metadata m m = [])
    ∧ diff_ai_metadata (some { framework_tags := some ["A"] })
        (some { framework_tags := some ["A", "B"] })
        = [("ai_metadata.framework_tags", ["A"], ["A", "B"])]
    ∧ (∀ nm, diff_ai_metadata none nm = diff_ai_metadata (some {}) nm)
    ∧ (∀ om, diff_ai_metadata om none = diff_ai_metadata om (some {}))
    ∧ (∀ nm, diff_ai_metadata
          (some { framework_tags := none, capability_groups := none }) nm
        = diff_ai_metadata
          (some { framework_tags := some [], capability_groups := some [] }) nm)
    ∧ (∀ om, diff_ai_metadata om
          (some { framework_tags := none, capability_groups := none })
        = diff_ai_metadata om
          (some { framework_tags := some [], capability_groups := some [] })) := by
  refine ⟨?_, ?_, ?_, ?_, ?_, ?_⟩
  · intro m; simp [diff_ai_metadata]
  · simp [diff_ai_metadata]
  · intro nm; simp [diff_ai_metadata]
  · intro om; simp [diff_ai_metadata]
  · intro nm; simp [diff_ai_metadata]
  · intro om; simp [diff_ai_metadata]

/-- The diff engine emits at most one entry per tracked field: the emitted
field paths are distinct. -/
theorem diff_field_paths_nodup (om nm : Option MetaDoc) :
    ((diff_ai_metadata om nm).map (fun e => e.1)).Nodup := by
  simp only [diff_ai_metadata]
  split <;> split <;> simp

/-! ## C7: record creation -/

/-- C7: create_record_with_initial_version appends the Record row and its
version row in the same transition; the returned Record points at the new
version, which has number 1, no parent, and version type draft regardless
of the requested status, while the requested status lands on the record. -/
theorem record_creation_atomic (st : Store) (title record_type : String)
    (content : Content) (u : User) (status : String) (t : Nat) :
    ∃ r v,
      create_record_with_initial_version st title record_type content u status t
        = (r, { st with records := st.records ++ [r],
                        record_versions := st.record_versions ++ [v],
                        nextId := st.nextId + 2 })
      ∧ r.current_version_id = some v.id
      ∧ v.record_id = r.id
      ∧ v.version_number = 1
      ∧ v.parent_version_id = none
      ∧ v.version_type = "draft"
      ∧ r.status = status
      ∧ r.title = title
      ∧ r.created_by = u.id := by
  exact ⟨_, _, rfl, rfl, rfl, rfl, rfl, rfl, rfl, rfl, rfl⟩

/-! ## C6: NotFound with atomicity -/

/-- C6: when no record has the requested id, create_new_version fails with
the NotFound error and the corresponding step leaves the store exactly as
it was: no record row changed and no version row inserted. -/
theorem new_version_notfound_atomic (st : Store) (record_id : Nat)
    (new_title : String) (content : Content) (u : User) (version_type : String)
    (new_status : Option String) (t : Nat)
    (h : get_record_by_id st record_id = none) :
    create_new_version st record_id new_title content u version_type new_status t
      = Except.error ("Record with id " ++ toString record_id ++ " not found")
    ∧ step st (Op.newVersion record_id new_title content u version_type new_status t)
      = st := by
  unfold get_record_by_id at h
  have hcv : create_new_version st record_id new_title content u version_type
      new_status t
      = Except.error ("Record with id " ++ toString record_id ++ " not found") := by
    unfold create_new_version
    rw [h]
  exact ⟨hcv, by simp only [step, hcv]⟩

/-- Witness for C6 at a concrete input: the demo store has no record 7, the
call errors and the store is untouched. -/
theorem new_version_notfound_atomic_witness :
    create_new_version demoStore 7 "t" {} uAlice "edit" none 5
      = Except.error ("Record with id " ++ toString 7 ++ " not found")
    ∧ step demoStore (Op.newVersion 7 "t" {} uAlice "edit" none 5) = demoStore :=
  new_version_notfound_atomic demoStore 7 "t" {} uAlice "edit" none 5 (by decide)

/-! ## C8: timestamp uniformity (refuted by add_comment) -/

/-- C8 evaluation: the comment row persisted by add_comment carries a naive
UTC timestamp with no Toronto offset embedded, unlike every other write
path; this exhibits the divergence from the uniform-Toronto-timestamp
claim. -/
theorem add_comment_timestamp_naive (st : Store) (record_id : Nat)
    (version_id : Option Nat) (text : String) (u : User) (t : Nat) :
    (add_comment st record_id version_id text u t).2.comments
      = st.comments ++ [(add_comment st record_id version_id text u t).1]
    ∧ (add_comment st record_id version_id text u t).1.created_at.tz
      = TZKind.naiveUTC
    ∧ TZKind.naiveUTC ≠ TZKind.torontoOffset :=
  ⟨rfl, rfl, by decide⟩

/-! ## C9: unrecognized roles fall to the viewer branch -/

/-- C9: a user whose role is neither admin nor user gets exactly the viewer
visibility: the result is a permutation of the non-draft records and is
identical to what a viewer-role user with the same identity sees; such a
role is never granted admin-wide or author-scoped visibility. -/
theorem unknown_role_viewer_visibility (st : Store) (u : User)
    (h1 : u.role ≠ "admin") (h2 : u.role ≠ "user") :
    (list_records_for_user st u).Perm
        (st.records.filter (fun r => r.status != "draft"))
    ∧ list_records_for_user st u
      = list_records_for_user st { u with role := "viewer" } := by
  have ha : roles.is_admin u = false := by
    simp [roles.is_admin, roles.ADMIN, h1]
  have hu : roles.is_user u = false := by
    simp [roles.is_user, roles.USER, h2]
  constructor
  · simp only [list_records_for_user, ha, hu, Bool.false_eq_true, if_false]
    exact List.mergeSort_perm _ _
  · simp [list_records_for_user, roles.is_admin, roles.is_user,
      roles.ADMIN, roles.USER, h1, h2]

/-- Witness for C9 at a concrete input: the superadmin role string, on the
demo store, sees a permutation of the non-draft records and coincides with
the viewer view. -/
theorem unknown_role_viewer_visibility_witness :
    (list_records_for_user demoStore uOther).Perm
        (demoStore.records.filter (fun r => r.status != "draft"))
    ∧ list_records_for_user demoStore uOther
      = list_records_for_user demoStore { uOther with role := "viewer" } :=
  unknown_role_viewer_visibility demoStore uOther (by decide) (by decide)

/-- Run lemma: on an existing record, create_new_version returns exactly
the version and store the source constructs, spelled out. -/
theorem create_new_version_run (st : Store) (record_id : Nat) (new_title : String)
    (content : Content) (u : User) (version_type : String)
    (new_status : Option String) (t : Nat) (r : Record)
    (h : st.records.find? (fun q => q.id == record_id) = some r) :
    create_new_version st record_id new_title content u version_type new_status t
      = Except.ok
        ({ id := st.nextId, record_id := record_id,
           version_number := maxVersionNumber st record_id + 1, content := content,
           created_by := u.id, created_by_name := u.display_name,
           created_at := now_toronto_iso t, version_type := version_type,
           parent_version_id := r.current_version_id },
         { st with
           records := st.records.map (fun q =>
             if q.id == record_id then
               { q with current_version_id := some st.nextId,
                        status := new_status.getD r.status, title := new_title }
             else q),
           record_versions := st.record_versions ++
             [{ id := st.nextId, record_id := record_id,
                version_number := maxVersionNumber st record_id + 1,
                content := content, created_by := u.id,
                created_by_name := u.display_name,
                created_at := now_toronto_iso t, version_type := version_type,
                parent_version_id := r.current_version_id }],
           nextId := st.nextId + 1 }) := by
  unfold create_new_version
  rw [h]

/-! ## C10: frame of create_new_version -/

/-- C10: a successful create_new_version only rewrites current_version_id,
status and title of records with the target id, appends exactly one version
row, and leaves comments, override events, every other record and every
previously existing version row unchanged; id, record_type, created_by and
created_at survive on every record. -/
theorem new_version_frame (st : Store) (record_id : Nat) (new_title : String)
    (content : Content) (u : User) (version_type : String)
    (new_status : Option String) (t : Nat) (r : Record)
    (h : get_record_by_id st record_id = some r) :
    ∃ v st2,
      create_new_version st record_id new_title content u version_type new_status t
        = Except.ok (v, st2)
      ∧ st2.records = st.records.map (fun q =>
          if q.id == record_id then
            { q with current_version_id := some v.id,
                     status := new_status.getD r.status, title := new_title }
          else q)
      ∧ st2.record_versions = st.record_versions ++ [v]
      ∧ st2.comments = st.comments
      ∧ st2.override_events = st.override_events
      ∧ (∀ q ∈ st.records, q.id ≠ record_id → q ∈ st2.records)
      ∧ (∀ q ∈ st.records, ∃ q2 ∈ st2.records,
          q2.id = q.id ∧ q2.record_type = q.record_type
          ∧ q2.created_by = q.created_by ∧ q2.created_at = q.created_at) := by
  unfold get_record_by_id at h
  refine ⟨_, _,
    create_new_version_run st record_id new_title content u version_type new_status t r h,
    rfl, rfl, rfl, rfl, ?_, ?_⟩
  · intro q hq hne
    have hb : (q.id == record_id) = false := by simp [hne]
    have hmem := List.mem_map_of_mem (fun q : Record =>
        if q.id == record_id then
          { q with current_version_id := some st.nextId,
                   status := new_status.getD r.status, title := new_title }
        else q) hq
    simpa [hb] using hmem
  · intro q hq
    refine ⟨_, List.mem_map_of_mem (fun q : Record =>
        if q.id == record_id then
          { q with current_version_id := some st.nextId,
                   status := new_status.getD r.status, title := new_title }
        else q) hq, ?_⟩
    by_cases hb : (q.id == record_id) = true <;> simp [hb]

/-- Witness for C10 at a concrete input: revising record 0 of the demo
store leaves the other record, the comments, the events and the old
versions in place. -/
theorem new_version_frame_witness :
    ∃ v st2,
      create_new_version demoStore 0 "New title" contentA uAlice "edit" none 9
        = Except.ok (v, st2)
      ∧ st2.records = demoStore.records.map (fun q =>
          if q.id == 0 then
            { q with current_version_id := some v.id,
                     status := (none : Option String).getD "draft",
                     title := "New title" }
          else q)
      ∧ st2.record_versions = demoStore.record_versions ++ [v]
      ∧ st2.comments = demoStore.comments
      ∧ st2.override_events = demoStore.override_events
      ∧ (∀ q ∈ demoStore.records, q.id ≠ 0 → q ∈ st2.records)
      ∧ (∀ q ∈ demoStore.records, ∃ q2 ∈ st2.records,
          q2.id = q.id ∧ q2.record_type = q.record_type
          ∧ q2.created_by = q.created_by ∧ q2.created_at = q.created_at) :=
  new_version_frame demoStore 0 "New title" contentA uAlice "edit" none 9
    { id := 0, title := "Fraud Detection", record_type := "ai_use_case",
      current_version_id := some 1, created_by := "alice",
      created_at := { instant := 0, tz := TZKind.torontoOffset },
      status := "draft" } (by decide)

/-! ## C3: pointer consistency -/

/-- C3: after a successful create_new_version on an existing record (in a
store whose version ids all lie below the fresh-id counter, as uuid
generation guarantees), get_current_version returns exactly the new
version, the record now carries the passed title and the passed status
(keeping the prior status when none was passed), and the parent
pointer of the new version is the current_version_id the record had at call time. -/
theorem pointer_consistency (st : Store) (record_id : Nat) (new_title : String)
    (content : Content) (u : User) (version_type : String)
    (new_status : Option String) (t : Nat) (r : Record)
    (hids : ∀ w ∈ st.record_versions, w.id < st.nextId)
    (h : get_record_by_id st record_id = some r) :
    ∃ v st2,
      create_new_version st record_id new_title content u version_type new_status t
        = Except.ok (v, st2)
      ∧ get_current_version st2 record_id = some v
      ∧ v.parent_version_id = r.current_version_id
      ∧ get_record_by_id st2 record_id
        = some { r with current_version_id := some v.id,
                        status := new_status.getD r.status, title := new_title } := by
  unfold get_record_by_id at h
  have hrid : ((fun q : Record => q.id == record_id) r) = true :=
    List.find?_some (p := fun q : Record => q.id == record_id) h
  have hmap : (st.records.map (fun q : Record =>
      if q.id == record_id then
        { q with current_version_id := some st.nextId,
                 status := new_status.getD r.status, title := new_title }
      else q)).find? (fun q => q.id == record_id)
      = (st.records.find? (fun q => q.id == record_id)).map (fun q : Record =>
          if q.id == record_id then
            { q with current_version_id := some st.nextId,
                     status := new_status.getD r.status, title := new_title }
          else q) := by
    apply find?_map_congr
    intro a
    by_cases hb : (a.id == record_id) = true <;> simp [hb]
  refine ⟨_, _,
    create_new_version_run st record_id new_title content u version_type new_status t r h,
    ?_, rfl, ?_⟩
  · unfold get_current_version
    simp only [hmap, h, Option.map_some', Option.map_some]
    rw [show (r.id == record_id) = true from hrid]
    simp only [eq_self_iff_true, if_true]
    rw [find?_append_of_forall_false]
    · simp [List.find?]
    · intro w hw
      have hlt := hids w hw
      simp
      omega
  · unfold get_record_by_id
    simp only [hmap, h, Option.map_some', Option.map_some]
    rw [show (r.id == record_id) = true from hrid]
    simp only [eq_self_iff_true, if_true]

/-- Witness for C3 at a concrete input: revising record 0 of the demo store
makes get_current_version return the new version, with the title, status
fallback and parent pointer as specified. -/
theorem pointer_consistency_witness :
    ∃ v st2,
      create_new_version demoStore 0 "Fraud v2" contentA uAlice "edit" none 9
        = Except.ok (v, st2)
      ∧ get_current_version st2 0 = some v
      ∧ v.parent_version_id = some 1
      ∧ get_record_by_id st2 0
        = some { id := 0, title := "Fraud v2", record_type := "ai_use_case",
                 current_version_id := some v.id, created_by := "alice",
                 created_at := { instant := 0, tz := TZKind.torontoOffset },
                 status := "draft" } :=
  pointer_consistency demoStore 0 "Fraud v2" contentA uAlice "edit" none 9
    { id := 0, title := "Fraud Detection", record_type := "ai_use_case",
      current_version_id := some 1, created_by := "alice",
      created_at := { instant := 0, tz := TZKind.torontoOffset },
      status := "draft" } (by decide) (by decide)

/-! ## C4: visibility filter -/

/-- Sorting by the created_at DESC key produces a newest-first list. -/
theorem mergeSort_byCreatedAtDesc_pairwise (l : List Record) :
    (l.mergeSort byCreatedAtDesc).Pairwise
      (fun a b => b.created_at.instant ≤ a.created_at.instant) := by
  have h := @List.sorted_mergeSort Record byCreatedAtDesc
    (fun a b c h1 h2 => by
      simp only [byCreatedAtDesc, decide_eq_true_eq] at h1 h2 ⊢
      omega)
    (fun a b => by
      simp only [byCreatedAtDesc, Bool.or_eq_true, decide_eq_true_eq]
      omega)
    l
  exact h.imp (fun hab => by
    simpa only [byCreatedAtDesc, decide_eq_true_eq] using hab)

/-- C4: list_records_for_user returns a permutation of all records for an
admin, of the records the user authored for a plain user, and of the
non-draft records for a viewer, always ordered newest-created-first by
creation timestamp. -/
theorem visibility_filter (st : Store) (u : User) :
    (u.role = "admin" → (list_records_for_user st u).Perm st.records)
    ∧ (u.role = "user" → (list_records_for_user st u).Perm
        (st.records.filter (fun r => r.created_by == u.id)))
    ∧ (u.role = "viewer" → (list_records_for_user st u).Perm
        (st.records.filter (fun r => r.status != "draft")))
    ∧ (list_records_for_user st u).Pairwise
        (fun a b => b.created_at.instant ≤ a.created_at.instant) := by
  refine ⟨?_, ?_, ?_, ?_⟩
  · intro h
    simp only [list_records_for_user, roles.is_admin, roles.ADMIN, h,
      beq_self_eq_true, if_true]
    exact List.mergeSort_perm _ _
  · intro h
    have ha : roles.is_admin u = false := by
      simp [roles.is_admin, roles.ADMIN, h]
    have hu : roles.is_user u = true := by
      simp [roles.is_user, roles.USER, h]
    simp only [list_records_for_user, ha, hu, Bool.false_eq_true, if_false, if_true]
    exact List.mergeSort_perm _ _
  · intro h
    have ha : roles.is_admin u = false := by
      simp [roles.is_admin, roles.ADMIN, h]
    have hu : roles.is_user u = false := by
      simp [roles.is_user, roles.USER, h]
    simp only [list_records_for_user, ha, hu, Bool.false_eq_true, if_false]
    exact List.mergeSort_perm _ _
  · unfold list_records_for_user
    split
    · exact mergeSort_byCreatedAtDesc_pairwise _
    · split
      · exact mergeSort_byCreatedAtDesc_pairwise _
      · exact mergeSort_byCreatedAtDesc_pairwise _

/-- Witness for C4 at concrete inputs: on the demo store, the admin sees a
permutation of all records, Alice a permutation of the records she created,
and a viewer a permutation of the non-draft records. -/
theorem visibility_filter_witness :
    (list_records_for_user demoStore uAdmin).Perm demoStore.records
    ∧ (list_records_for_user demoStore uAlice).Perm
        (demoStore.records.filter (fun r => r.created_by == uAlice.id))
    ∧ (list_records_for_user demoStore { uOther with role := "viewer" }).Perm
        (demoStore.records.filter (fun r => r.status != "draft")) :=
  ⟨(visibility_filter demoStore uAdmin).1 rfl,
   (visibility_filter demoStore uAlice).2.1 rfl,
   (visibility_filter demoStore { uOther with role := "viewer" }).2.2.1 rfl⟩

/-! ## C1: override gating -/

/-- The override-event insertion loop appends exactly one event per diff
entry, carrying the field path and values of that entry, and touches no other
table; the fresh-id counter only grows. -/
theorem insertOverrideEvents_spec (rid vid : Nat) (u : User) (now : Timestamp) :
    ∀ (ovs : List (String × List String × List String)) (st : Store),
      (insertOverrideEvents st rid vid ovs u now).override_events.map
          (fun e => (e.field_path, e.original_value, e.new_value))
        = st.override_events.map (fun e => (e.field_path, e.original_value, e.new_value))
            ++ ovs
      ∧ (insertOverrideEvents st rid vid ovs u now).override_events.length
        = st.override_events.length + ovs.length
      ∧ (insertOverrideEvents st rid vid ovs u now).records = st.records
      ∧ (insertOverrideEvents st rid vid ovs u now).record_versions = st.record_versions
      ∧ (insertOverrideEvents st rid vid ovs u now).comments = st.comments
      ∧ st.nextId ≤ (insertOverrideEvents st rid vid ovs u now).nextId := by
  intro ovs
  induction ovs with
  | nil =>
    intro st
    simp [insertOverrideEvents]
  | cons head rest ih =>
    intro st
    obtain ⟨fp, ov, nv⟩ := head
    simp only [insertOverrideEvents]
    have h := ih { st with
      override_events := st.override_events ++
        [{ id := st.nextId, record_id := rid, version_id := vid, field_path := fp,
           original_value := ov, new_value := nv, overridden_by := u.id,
           overridden_by_name := u.display_name, overridden_at := now }],
      nextId := st.nextId + 1 }
    refine ⟨?_, ?_, h.2.2.1, h.2.2.2.1, h.2.2.2.2.1, ?_⟩
    · rw [h.1]
      simp [List.map_append]
    · rw [h.2.1]
      simp
      omega
    · have h2 := h.2.2.2.2.2
      simp at h2 ⊢
      omega

/-- C1: when an existing record is saved from the editor, the version type
is override with exactly one override event appended per changed tracked
field precisely when the author is an admin and the tracked-metadata diff
against the previous current version is non-empty; a non-admin author, or
an empty diff, yields version type edit and no new override events. -/
theorem override_gating (st : Store) (record_id : Nat)
    (title business_problem description : String)
    (framework_tags capability_groups : List String) (u : User) (status : String)
    (t t2 : Nat) (r : Record) (cv : RecordVersion)
    (ovs : List (String × List String × List String))
    (hr : get_record_by_id st record_id = some r)
    (hcv : get_current_version st r.id = some cv)
    (hovs : ovs = diff_ai_metadata (some (cv.content.ai_metadata.getD {}))
        (some { framework_tags := some framework_tags,
                capability_groups := some capability_groups })) :
    ∃ v st2,
      save_edit st record_id title business_problem description framework_tags
          capability_groups u status t t2 = some (v, st2)
      ∧ (roles.is_admin u = true → ovs ≠ [] →
          v.version_type = "override"
          ∧ st2.override_events.map (fun e => (e.field_path, e.original_value, e.new_value))
            = st.override_events.map (fun e => (e.field_path, e.original_value, e.new_value))
                ++ ovs
          ∧ st2.override_events.length = st.override_events.length + ovs.length
          ∧ (ovs.map (fun e => e.1)).Nodup)
      ∧ (roles.is_admin u = false ∨ ovs = [] →
          v.version_type = "edit" ∧ st2.override_events = st.override_events) := by
  have hfind := hr
  unfold get_record_by_id at hfind
  have hre : r.id = record_id := by
    have hp := List.find?_some (p := fun q : Record => q.id == record_id) hfind
    simpa using hp
  subst hre
  by_cases hA : (roles.is_admin u && !ovs.isEmpty) = true
  · have hrun := create_new_version_run st r.id title
      { business_problem := business_problem, description := description,
        ai_metadata := some { framework_tags := some framework_tags,
                              capability_groups := some capability_groups } }
      u "override" (some status) t r hfind
    cases hs : save_edit st r.id title business_problem description framework_tags
        capability_groups u status t t2 with
    | none =>
      exfalso
      simp only [save_edit, hr, hcv, ← hovs, hA, eq_self_iff_true, if_true, hrun,
        show (("override" : String) == "override") = true from rfl] at hs
      exact Option.noConfusion hs
    | some p =>
      obtain ⟨v, st2⟩ := p
      have hs2 := hs
      simp only [save_edit, hr, hcv, ← hovs, hA, eq_self_iff_true, if_true, hrun,
        show (("override" : String) == "override") = true from rfl,
        Option.some.injEq, Prod.mk.injEq] at hs2
      obtain ⟨hv, hst⟩ := hs2
      subst hv
      subst hst
      refine ⟨_, _, rfl, ?_, ?_⟩
      · intro ha hne
        have hie : ovs.isEmpty = false := by
          cases hh : ovs.isEmpty
          · rfl
          · rw [List.isEmpty_iff] at hh
            exact absurd hh hne
        refine ⟨rfl, ?_, ?_, ?_⟩
        · simp only [log_override_events, hie, Bool.false_eq_true, if_false]
          exact (insertOverrideEvents_spec r.id st.nextId u (now_toronto_iso t2) ovs _).1
        · simp only [log_override_events, hie, Bool.false_eq_true, if_false]
          exact (insertOverrideEvents_spec r.id st.nextId u (now_toronto_iso t2) ovs _).2.1
        · rw [hovs]
          exact diff_field_paths_nodup _ _
      · intro hB
        exfalso
        rcases hB with hb | hb
        · rw [hb] at hA
          simp at hA
        · rw [hb] at hA
          simp at hA
  · have hA2 : (roles.is_admin u && !ovs.isEmpty) = false := by
      cases hh : (roles.is_admin u && !ovs.isEmpty)
      · rfl
      · exact absurd hh hA
    have hrun := create_new_version_run st r.id title
      { business_problem := business_problem, description := description,
        ai_metadata := some { framework_tags := some framework_tags,
                              capability_groups := some capability_groups } }
      u "edit" (some status) t r hfind
    cases hs : save_edit st r.id title business_problem description framework_tags
        capability_groups u status t t2 with
    | none =>
      exfalso
      simp only [save_edit, hr, hcv, ← hovs, hA2, Bool.false_eq_true, if_false, hrun,
        show (("edit" : String) == "override") = false from rfl] at hs
      exact Option.noConfusion hs
    | some p =>
      obtain ⟨v, st2⟩ := p
      have hs2 := hs
      simp only [save_edit, hr, hcv, ← hovs, hA2, Bool.false_eq_true, if_false, hrun,
        show (("edit" : String) == "override") = false from rfl,
        Option.some.injEq, Prod.mk.injEq] at hs2
      obtain ⟨hv, hst⟩ := hs2
      subst hv
      subst hst
      refine ⟨_, _, rfl, ?_, ?_⟩
      · intro ha hne
        exfalso
        rw [ha] at hA2
        simp [List.isEmpty_iff] at hA2
        exact hne hA2
      · intro hB
        exact ⟨rfl, rfl⟩

/-- Witness for C1 at a concrete input: on the demo store, the admin saving
a changed capability_groups produces an override version and exactly one
new override event; Alice making the identical change produces an edit
version and no new events. -/
theorem override_gating_witness :
    (∃ v st2,
      save_edit demoStore 0 "T" "bp" "d" ["Risk & Governance"] ["Payments"] uAdmin
          "submitted" 10 11 = some (v, st2)
      ∧ v.version_type = "override"
      ∧ st2.override_events.length = demoStore.override_events.length + 1)
    ∧ (∃ v st2,
      save_edit demoStore 0 "T" "bp" "d" ["Risk & Governance"] ["Payments"] uAlice
          "submitted" 10 11 = some (v, st2)
      ∧ v.version_type = "edit"
      ∧ st2.override_events = demoStore.override_events) := by
  constructor
  · obtain ⟨v, st2, h1, h2, h3⟩ := override_gating demoStore 0 "T" "bp" "d"
      ["Risk & Governance"] ["Payments"] uAdmin "submitted" 10 11
      { id := 0, title := "Fraud Detection", record_type := "ai_use_case",
        current_version_id := some 1, created_by := "alice",
        created_at := { instant := 0, tz := TZKind.torontoOffset },
        status := "draft" }
      { id := 1, record_id := 0, version_number := 1, content := contentA,
        created_by := "alice", created_by_name := "Alice",
        created_at := { instant := 0, tz := TZKind.torontoOffset },
        version_type := "draft", parent_version_id := none }
      [("ai_metadata.capability_groups", ["Fraud Detection"], ["Payments"])]
      (by decide) (by decide) (by decide)
    obtain ⟨hvt, hmap, hlen, hnd⟩ := h2 (by decide) (by decide)
    exact ⟨v, st2, h1, hvt, by rw [hlen]; rfl⟩
  · obtain ⟨v, st2, h1, h2, h3⟩ := override_gating demoStore 0 "T" "bp" "d"
      ["Risk & Governance"] ["Payments"] uAlice "submitted" 10 11
      { id := 0, title := "Fraud Detection", record_type := "ai_use_case",
        current_version_id := some 1, created_by := "alice",
        created_at := { instant := 0, tz := TZKind.torontoOffset },
        status := "draft" }
      { id := 1, record_id := 0, version_number := 1, content := contentA,
        created_by := "alice", created_by_name := "Alice",
        created_at := { instant := 0, tz := TZKind.torontoOffset },
        version_type := "draft", parent_version_id := none }
      [("ai_metadata.capability_groups", ["Fraud Detection"], ["Payments"])]
      (by decide) (by decide) (by decide)
    obtain ⟨hvt, hev⟩ := h3 (Or.inl (by decide))
    exact ⟨v, st2, h1, hvt, hev⟩

/-! ## C2: version numbering -/

/-- On a store whose version rows all reference record ids below the
counter, a fresh record id has no versions yet. -/
theorem versionsOf_eq_nil (st : Store) (h : VersionRecIdsBound st) (record_id : Nat)
    (hge : st.nextId ≤ record_id) : versionsOf st record_id = [] := by
  unfold versionsOf
  rw [List.filter_eq_nil_iff]
  intro v hv
  have hlt := h v hv
  simp
  omega

/-- Every mutating operation preserves the reachability invariant. -/
theorem storeInv_step (st : Store) (op : Op) (h : StoreInv st) : StoreInv (step st op) := by
  obtain ⟨h1, h2, h3⟩ := h
  cases op with
  | createRecord title record_type content user status t =>
    refine ⟨?_, ?_, ?_⟩
    · intro r hr
      simp only [step, create_record_with_initial_version, List.mem_append,
        List.mem_singleton] at hr ⊢
      rcases hr with hr | hr
      · have := h1 r hr
        omega
      · subst hr
        simp
    · intro v hv
      simp only [step, create_record_with_initial_version, List.mem_append,
        List.mem_singleton] at hv ⊢
      rcases hv with hv | hv
      · have := h2 v hv
        omega
      · subst hv
        simp
    · intro rid
      simp only [step, create_record_with_initial_version, versionsOf,
        List.filter_append]
      by_cases hc : (st.nextId == rid) = true
      · have hr : st.nextId = rid := by simpa using hc
        subst hr
        have hnil : versionsOf st st.nextId = [] :=
          versionsOf_eq_nil st h2 st.nextId (Nat.le_refl _)
        unfold versionsOf at hnil
        rw [hnil]
        simp [List.range'_one]
      · have hcf : (st.nextId == rid) = false := by
          cases hh : (st.nextId == rid)
          · rfl
          · exact absurd hh hc
        simp only [List.filter_cons, List.filter_nil, hcf, Bool.false_eq_true,
          if_false]
        have := h3 rid
        unfold versionsOf at this
        simpa using this
  | newVersion record_id new_title content user version_type new_status t =>
    cases hf : st.records.find? (fun r => r.id == record_id) with
    | none =>
      simp only [step, create_new_version, hf]
      exact ⟨h1, h2, h3⟩
    | some r =>
      have hrun := create_new_version_run st record_id new_title content user
        version_type new_status t r hf
      have hmem : r ∈ st.records :=
        List.mem_of_find?_eq_some hf
      have hrid : r.id = record_id := by
        simpa using List.find?_some (p := fun q : Record => q.id == record_id) hf
      have hrlt : record_id < st.nextId := hrid ▸ h1 r hmem
      simp only [step, hrun]
      refine ⟨?_, ?_, ?_⟩
      · intro q hq
        simp only [List.mem_map] at hq
        obtain ⟨orig, ho, hfq⟩ := hq
        have horig := h1 orig ho
        by_cases hb : (orig.id == record_id) = true
        · simp only [hb, if_true] at hfq
          subst hfq
          show orig.id < st.nextId + 1
          omega
        · have hbf : (orig.id == record_id) = false := by
            cases hh : (orig.id == record_id)
            · rfl
            · exact absurd hh hb
          simp only [hbf, Bool.false_eq_true, if_false] at hfq
          subst hfq
          show orig.id < st.nextId + 1
          omega
      · intro w hw
        simp only [List.mem_append, List.mem_singleton] at hw
        rcases hw with hw | hw
        · have := h2 w hw
          simp
          omega
        · subst hw
          simp
          omega
      · intro rid
        simp only [versionsOf, List.filter_append]
        by_cases hc : (record_id == rid) = true
        · have hreq : record_id = rid := by simpa using hc
          subst hreq
          have hmap := h3 record_id
          have hmax : maxVersionNumber st record_id = (versionsOf st record_id).length :=
            foldl_max_version_number _ hmap
          unfold versionsOf at hmap
          simp only [List.filter_cons, List.filter_nil, hc, if_true]
          rw [List.map_append, List.length_append]
          unfold versionsOf at hmax
          simp only [hmap, List.map_cons, List.map_nil, hmax, List.length_cons,
            List.length_nil]
          rw [List.range'_1_concat]
          simp [Nat.add_comm]
        · have hcf : (record_id == rid) = false := by
            cases hh : (record_id == rid)
            · rfl
            · exact absurd hh hc
          simp only [List.filter_cons, List.filter_nil, hcf, Bool.false_eq_true,
            if_false]
          have := h3 rid
          unfold versionsOf at this
          simpa using this
  | addComment record_id version_id text user t =>
    refine ⟨?_, ?_, ?_⟩
    · intro r hr
      simp only [step, add_comment] at hr ⊢
      have := h1 r hr
      omega
    · intro v hv
      simp only [step, add_comment] at hv ⊢
      have := h2 v hv
      omega
    · intro rid
      simp only [step, add_comment, versionsOf]
      exact h3 rid
  | updateComment comment_id new_text t =>
    refine ⟨?_, ?_, ?_⟩
    · intro r hr
      simp only [step, update_comment] at hr ⊢
      exact h1 r hr
    · intro v hv
      simp only [step, update_comment] at hv ⊢
      exact h2 v hv
    · intro rid
      simp only [step, update_comment, versionsOf]
      exact h3 rid
  | deleteComment comment_id =>
    refine ⟨?_, ?_, ?_⟩
    · intro r hr
      simp only [step, delete_comment] at hr ⊢
      exact h1 r hr
    · intro v hv
      simp only [step, delete_comment] at hv ⊢
      exact h2 v hv
    · intro rid
      simp only [step, delete_comment, versionsOf]
      exact h3 rid
  | logOverrides record_id version_id overrides user t =>
    simp only [step, log_override_events]
    by_cases he : overrides.isEmpty = true
    · simp only [he, if_true]
      exact ⟨h1, h2, h3⟩
    · have hef : overrides.isEmpty = false := by
        cases hh : overrides.isEmpty
        · rfl
        · exact absurd hh he
      simp only [hef, Bool.false_eq_true, if_false]
      have hspec := insertOverrideEvents_spec record_id version_id user
        (now_toronto_iso t) overrides st
      refine ⟨?_, ?_, ?_⟩
      · intro r hr
        rw [hspec.2.2.1] at hr
        have := h1 r hr
        have := hspec.2.2.2.2.2
        omega
      · intro v hv
        rw [hspec.2.2.2.1] at hv
        have := h2 v hv
        have := hspec.2.2.2.2.2
        omega
      · intro rid
        unfold versionsOf
        rw [hspec.2.2.2.1]
        exact h3 rid

/-- Any store reachable from the empty database satisfies the invariant. -/
theorem storeInv_applyOps (ops : List Op) : StoreInv (applyOps Store.empty ops) := by
  have hgen : ∀ (l : List Op) (st : Store), StoreInv st → StoreInv (applyOps st l) := by
    intro l
    induction l with
    | nil => intro st h; exact h
    | cons op rest ih =>
      intro st h
      exact ih _ (storeInv_step st op h)
  refine hgen ops Store.empty ⟨?_, ?_, ?_⟩
  · intro r hr
    cases hr
  · intro v hv
    cases hv
  · intro rid
    rfl

/-- Under the invariant, the ORDER BY version_number read returns the
versions exactly in creation order: the filtered list is already sorted. -/
theorem list_versions_eq_creation_order (st : Store) (h : VersionNumbersOK st)
    (record_id : Nat) :
    list_versions_for_record st record_id = versionsOf st record_id := by
  unfold list_versions_for_record
  apply List.mergeSort_of_sorted
  have hp : List.Pairwise (· < ·)
      (List.range' 1 (versionsOf st record_id).length) :=
    List.pairwise_lt_range' 1 _
  rw [← h record_id] at hp
  have hp2 := List.pairwise_map.mp hp
  exact hp2.imp (fun hab => by
    simp only [decide_eq_true_eq]
    omega)

/-- C2: on any store built from the empty database by any sequence of
operations, the version listing of every record reads exactly 1..N with no gaps
or duplicates, strictly increasing, in creation order; and any successful
create_new_version numbers the new version max(existing) + 1. -/
theorem version_numbering (ops : List Op) (record_id : Nat) :
    ((list_versions_for_record (applyOps Store.empty ops) record_id).map
        (fun v => v.version_number)
      = List.range' 1
          (list_versions_for_record (applyOps Store.empty ops) record_id).length)
    ∧ (list_versions_for_record (applyOps Store.empty ops) record_id).Pairwise
        (fun a b => a.version_number < b.version_number)
    ∧ list_versions_for_record (applyOps Store.empty ops) record_id
      = versionsOf (applyOps Store.empty ops) record_id
    ∧ (∀ new_title content u version_type new_status t v st2,
        create_new_version (applyOps Store.empty ops) record_id new_title content u
            version_type new_status t = Except.ok (v, st2) →
        v.version_number
          = maxVersionNumber (applyOps Store.empty ops) record_id + 1) := by
  obtain ⟨h1, h2, h3⟩ := storeInv_applyOps ops
  have hb := list_versions_eq_creation_order _ h3 record_id
  have hm := h3 record_id
  refine ⟨?_, ?_, hb, ?_⟩
  · rw [hb]
    exact hm
  · rw [hb]
    have hp : List.Pairwise (· < ·)
        (List.range' 1 (versionsOf (applyOps Store.empty ops) record_id).length) :=
      List.pairwise_lt_range' 1 _
    rw [← hm] at hp
    exact List.pairwise_map.mp hp
  · intro new_title content u version_type new_status t v st2 hok
    cases hf : (applyOps Store.empty ops).records.find? (fun r => r.id == record_id) with
    | none =>
      unfold create_new_version at hok
      rw [hf] at hok
      exact Except.noConfusion hok
    | some r =>
      have hrun := create_new_version_run _ record_id new_title content u
        version_type new_status t r hf
      rw [hrun] at hok
      simp only [Except.ok.injEq, Prod.mk.injEq] at hok
      rw [← hok.1]

/-- Witness for C2 at a concrete input: a record revised twice lists
version numbers 1, 2, 3, and a further create_new_version numbers the new
version max + 1. -/
theorem version_numbering_witness :
    ((list_versions_for_record
        (applyOps Store.empty
          [Op.createRecord "A" "ai_use_case" contentA uAlice "draft" 0,
           Op.newVersion 0 "A2" contentA uAlice "edit" none 1,
           Op.newVersion 0 "A3" contentA uAlice "submit" (some "submitted") 2]) 0).map
        (fun v => v.version_number)
      = List.range' 1
          (list_versions_for_record
            (applyOps Store.empty
              [Op.createRecord "A" "ai_use_case" contentA uAlice "draft" 0,
               Op.newVersion 0 "A2" contentA uAlice "edit" none 1,
               Op.newVersion 0 "A3" contentA uAlice "submit" (some "submitted") 2]) 0).length)
    ∧ (∃ v st2,
        create_new_version
            (applyOps Store.empty
              [Op.createRecord "A" "ai_use_case" contentA uAlice "draft" 0,
               Op.newVersion 0 "A2" contentA uAlice "edit" none 1,
               Op.newVersion 0 "A3" contentA uAlice "submit" (some "submitted") 2])
            0 "A4" contentA uAlice "edit" none 3
          = Except.ok (v, st2)
        ∧ v.version_number
          = maxVersionNumber
              (applyOps Store.empty
                [Op.createRecord "A" "ai_use_case" contentA uAlice "draft" 0,
                 Op.newVersion 0 "A2" contentA uAlice "edit" none 1,
                 Op.newVersion 0 "A3" contentA uAlice "submit" (some "submitted") 2])
              0 + 1) := by
  have h := version_numbering
    [Op.createRecord "A" "ai_use_case" contentA uAlice "draft" 0,
     Op.newVersion 0 "A2" contentA uAlice "edit" none 1,
     Op.newVersion 0 "A3" contentA uAlice "submit" (some "submitted") 2] 0
  exact ⟨h.1, ⟨_, _, rfl, h.2.2.2 "A4" contentA uAlice "edit" none 3 _ _ rfl⟩⟩
